import Mathlib

/-!
Shallow embedding of the log-pipeline orchestration code of
`rtt_python_gui.py` (class `RTTViewer`), together with proofs about it.

Queues are modelled as lists (front of the list = front of the FIFO).
A render batch (the dict placed on `display_output_queue`) is modelled by
the structure `UpdateInfo` with its two fields `highlighted_text_list`
(a list of `(text, isHighlighted)` segments) and `append`.
-/

structure UpdateInfo where
  highlighted_text_list : List (String × Bool)
  append : Bool
deriving DecidableEq

/-- The per-tick cap of `_process_display_output_queue`
(`max_per_call = 20` in the source). -/
def max_per_call : Nat := 20

/-- The popping loop of `_process_display_output_queue`:
`while not self.display_output_queue.empty() and count < max_per_call`.
The fuel argument is `max_per_call - count`; `acc` is
`highlighted_log_lines`, `last` is the running value of the
`update_info` variable (`none` models its initial value `[]`, i.e.
"nothing popped yet").  Returns the final
`(highlighted_log_lines, update_info, remaining queue)`. -/
def drainStep : Nat → List UpdateInfo → List (String × Bool) → Option UpdateInfo →
    List (String × Bool) × Option UpdateInfo × List UpdateInfo
  | _, [], acc, last => (acc, last, [])
  | 0, q, acc, last => (acc, last, q)
  | n + 1, u :: q, acc, _ =>
    let acc2 := acc ++ u.highlighted_text_list
    if u.append = false then (acc2, some u, q)
    else drainStep n q acc2 (some u)

/-- `_process_display_output_queue`, as a function from the queue content
to the list of updates delivered to the renderer via
`self.log_view.display_log_update` (the code has a single call site,
guarded by `update_info != []`, so this list is `[]` or a singleton)
together with the queue content left for the next tick.  When a batch was
popped, the emitted update is the last popped batch with its
`highlighted_text_list` overwritten by the accumulated
`highlighted_log_lines`. -/
def processDisplayOutputQueue (q : List UpdateInfo) : List UpdateInfo × List UpdateInfo :=
  match drainStep max_per_call q [] none with
  | (_, none, rem) => ([], rem)
  | (acc, some u, rem) => ([{ u with highlighted_text_list := acc }], rem)

/-- The concrete queue content of claim C1: three `append=true` batches
with segments `["x"]`, `["y"]`, `["z"]`, then one `append=false` batch
with segments `["p","q"]` (all segments unhighlighted). -/
def c1queue : List UpdateInfo :=
  [⟨[("x", false)], true⟩, ⟨[("y", false)], true⟩, ⟨[("z", false)], true⟩,
   ⟨[("p", false), ("q", false)], false⟩]

/-- An element of `log_processing_input_queue`: a Python dict whose keys
`"line"`, `"filter_string"`, `"highlight_string"`, `"pause_string"` may
each be present (`some`) or missing (`none`). -/
structure LogInput where
  line : Option String
  filter_string : Option String
  highlight_string : Option String
  pause_string : Option String
deriving DecidableEq

/-- One iteration of the `while True` loop of `_log_processing_thread`.
The external processing step `self.log_handler["process"]` (defined in
`libs/log/log_controller`, outside this repository's pipeline file) is an
abstract parameter `process`.  Input: the ingestion queue and the output
queue.  Output: the new ingestion queue, the new output queue, and the
list of arguments that `process` was invoked with during the iteration
(so that the number of processing steps is observable).  An empty
ingestion queue makes `get(timeout=0.1)` raise `queue.Empty`, which the
code swallows with `pass`. -/
def logProcessingIteration
    (process : String → Option String → Option String → Option String → UpdateInfo)
    (inq : List LogInput) (outq : List UpdateInfo) :
    List LogInput × List UpdateInfo ×
      List (String × Option String × Option String × Option String) :=
  match inq with
  | [] => ([], outq, [])
  | log_input :: rest =>
    let line := match log_input.line with | some s => s | none => ""
    let filter_string := log_input.filter_string
    let highlight_string := log_input.highlight_string
    let pause_string := log_input.pause_string
    let update_info := process line filter_string highlight_string pause_string
    (rest, outq ++ [update_info], [(line, filter_string, highlight_string, pause_string)])

/-- `LOG_UPDATE_TIME_INTERVAL_ms = 100` from the source.  Time values are
modelled as exact rationals. -/
def LOG_UPDATE_TIME_INTERVAL_ms : ℚ := 100

/-- `self.log_update_time_interval_s = LOG_UPDATE_TIME_INTERVAL_ms / 1000.0`. -/
def log_update_time_interval_s : ℚ := LOG_UPDATE_TIME_INTERVAL_ms / 1000

/-- The drain-scheduling guard of `run`: given the interval, the stored
`self.last_processed_time` and the sampled `current_time` of each GUI-loop
pass (in order), returns the times at which
`_process_display_output_queue` is invoked.  The guard is
`current_time - self.last_processed_time >= self.log_update_time_interval_s`,
and on firing `self.last_processed_time = current_time`. -/
def drainInvocationTimes (interval : ℚ) : ℚ → List ℚ → List ℚ
  | _, [] => []
  | last_processed_time, current_time :: ts =>
    if interval ≤ current_time - last_processed_time then
      current_time :: drainInvocationTimes interval current_time ts
    else
      drainInvocationTimes interval last_processed_time ts

/-- `_update_mcu_history(mcu)`, as a function of the object state it reads
(`self.supported_mcu_list`, `self.mcu_history`) returning the new
`self.mcu_history`.  In the source: if `mcu` is supported it is inserted
at index 0 unless already present, then `self.mcu_history =
self.mcu_history[:10]`; if unsupported nothing happens. -/
def update_mcu_history (supported_mcu_list mcu_history : List String)
    (mcu : String) : List String :=
  if mcu ∈ supported_mcu_list then
    (if mcu ∈ mcu_history then mcu_history else mcu :: mcu_history).take 10
  else
    mcu_history

/-- A JSON value, as produced by `json.load`. -/
inductive JsonValue where
  | null : JsonValue
  | bool (b : Bool) : JsonValue
  | num (q : ℚ) : JsonValue
  | str (s : String) : JsonValue
  | arr (elems : List JsonValue) : JsonValue
  | obj (fields : List (String × JsonValue)) : JsonValue

/-- `isinstance(data, dict)`. -/
def JsonValue.isDict : JsonValue → Bool
  | .obj _ => true
  | _ => false

/-- The default configuration returned by `_load_config` on any failure:
`{'mcu_history': [], 'last_interface': 'SWD'}`. -/
def default_config : JsonValue :=
  .obj [("mcu_history", .arr []), ("last_interface", .str "SWD")]

/-- `_load_config`.  The effect of `open` + `json.load` on the config file
is modelled by its outcome: `none` when any exception is raised (missing
or unreadable file, invalid JSON) and `some data` when parsing succeeds.
The source returns `data` only when `isinstance(data, dict)`; every other
path falls through to the default dict. -/
def load_config (read_result : Option JsonValue) : JsonValue :=
  match read_result with
  | some data => if data.isDict then data else default_config
  | none => default_config

/-- Unfolding lemma: while every popped batch has `append = true` the loop
keeps popping and accumulating; the first `append = false` batch stops it,
and the accumulated segment list is the concatenation of everything popped. -/
theorem drainStep_true_run (ts : List UpdateInfo) (f : UpdateInfo)
    (rest : List UpdateInfo) (fuel : Nat) (acc : List (String × Bool))
    (last : Option UpdateInfo)
    (hts : ∀ t ∈ ts, t.append = true) (hf : f.append = false)
    (hlen : ts.length < fuel) :
    drainStep fuel (ts ++ f :: rest) acc last =
      (acc ++ (ts.map UpdateInfo.highlighted_text_list).flatten ++ f.highlighted_text_list,
       some f, rest) := by
  induction ts generalizing fuel acc last with
  | nil =>
    cases fuel with
    | zero => omega
    | succ n => simp [drainStep, hf]
  | cons t ts ih =>
    cases fuel with
    | zero => omega
    | succ n =>
      have ht : t.append = true := hts t (by simp)
      have hts2 : ∀ u ∈ ts, u.append = true := fun u hu => hts u (by simp [hu])
      have hlen2 : ts.length < n := by simpa using Nat.lt_of_succ_lt_succ hlen
      simp only [List.cons_append, drainStep, ht, Bool.true_eq_false, if_false,
        List.append_eq]
      rw [ih n (acc ++ t.highlighted_text_list) (some t) hts2 hlen2]
      simp

/-- The remaining queue after the popping loop is always a suffix of the
initial queue obtained by dropping at most `min fuel q.length` batches. -/
theorem drainStep_drop (fuel : Nat) (q : List UpdateInfo)
    (acc : List (String × Bool)) (last : Option UpdateInfo) :
    ∃ n, n ≤ fuel ∧ n ≤ q.length ∧ (drainStep fuel q acc last).2.2 = q.drop n := by
  induction fuel generalizing q acc last with
  | zero =>
    cases q with
    | nil => exact ⟨0, Nat.le_refl 0, Nat.zero_le _, rfl⟩
    | cons u q => exact ⟨0, Nat.le_refl 0, Nat.zero_le _, rfl⟩
  | succ n ih =>
    cases q with
    | nil => exact ⟨0, Nat.zero_le _, Nat.le_refl 0, rfl⟩
    | cons u q =>
      simp only [drainStep]
      by_cases hu : u.append = false
      · exact ⟨1, by omega, by simp, by simp [hu]⟩
      · obtain ⟨m, hm1, hm2, hm3⟩ := ih q (acc ++ u.highlighted_text_list) (some u)
        exact ⟨m + 1, by omega, by simp; omega, by simp [hu, hm3]⟩

/-- C2: as soon as a popped batch has `append=false` the drain loop stops
popping immediately after that batch: if the queue holds a run `ts` of
`append=true` batches (shorter than the cap), then a full-refresh batch
`f`, then arbitrary batches `rest`, the tick leaves exactly `rest` queued
(they are not dropped; a later tick pops them). -/
theorem drain_stops_after_full_refresh (ts rest : List UpdateInfo) (f : UpdateInfo)
    (hts : ∀ t ∈ ts, t.append = true) (hf : f.append = false)
    (hlen : ts.length < max_per_call) :
    (processDisplayOutputQueue (ts ++ f :: rest)).2 = rest := by
  unfold processDisplayOutputQueue
  rw [drainStep_true_run ts f rest max_per_call [] none hts hf hlen]

/-- Witness for C2 at a concrete input: one `append=true` batch, one
full-refresh batch, one batch queued behind it; the tick leaves exactly
the trailing batch queued. -/
theorem drain_stops_after_full_refresh_witness :
    (processDisplayOutputQueue
      ([⟨[("a", false)], true⟩] ++
        (⟨[("b", false)], false⟩ : UpdateInfo) :: [⟨[("c", false)], true⟩])).2 =
      [⟨[("c", false)], true⟩] :=
  drain_stops_after_full_refresh [⟨[("a", false)], true⟩] [⟨[("c", false)], true⟩]
    ⟨[("b", false)], false⟩ (by decide) (by decide) (by decide)

/-- C3: each drain tick pops at most `max_per_call = 20` batches: the
remaining queue is obtained by dropping `n ≤ 20` batches (and `n` never
exceeds the queue length, so the loop stops when the queue empties; the
popping loop is a total function, so it terminates on every queue
content). -/
theorem drain_pops_at_most_cap (q : List UpdateInfo) :
    ∃ n, n ≤ 20 ∧ n ≤ q.length ∧ (processDisplayOutputQueue q).2 = q.drop n := by
  obtain ⟨n, h1, h2, h3⟩ := drainStep_drop max_per_call q [] none
  refine ⟨n, h1, h2, ?_⟩
  unfold processDisplayOutputQueue
  rcases hr : drainStep max_per_call q [] none with ⟨acc, last, rem⟩
  rw [hr] at h3
  cases last <;> simpa using h3

/-- C4: a drain tick delivers at most one combined update to the renderer,
and a tick in which no batch was popped (the queue was empty) delivers
nothing at all — the renderer is not touched. -/
theorem drain_at_most_one_update (q : List UpdateInfo) :
    (processDisplayOutputQueue q).1.length ≤ 1 ∧
      (q = [] → processDisplayOutputQueue q = ([], [])) := by
  constructor
  · unfold processDisplayOutputQueue
    rcases drainStep max_per_call q [] none with ⟨acc, last, rem⟩
    cases last <;> simp
  · rintro rfl
    rfl

/-- Witness for C4 at the concrete empty queue. -/
theorem drain_at_most_one_update_witness :
    (processDisplayOutputQueue []).1.length ≤ 1 ∧
      processDisplayOutputQueue [] = ([], []) :=
  ⟨(drain_at_most_one_update []).1, (drain_at_most_one_update []).2 rfl⟩

/-- C1 (counterexample): on the queue `["x"], ["y"], ["z"], ["p","q"](append=false)`
the tick does NOT emit `{segments:["p","q"], append:false}` — the
full-refresh batch does not supersede the segments accumulated from the
batches popped before it. -/
theorem c1_drain_supersede_counterexample :
    (processDisplayOutputQueue c1queue).1 ≠
      [⟨[("p", false), ("q", false)], false⟩] := by
  decide

/-- C1 (amended): on the queue `["x"], ["y"], ["z"], ["p","q"](append=false)`
the tick emits exactly one combined update, with `append=false` taken from
the full-refresh batch but with the segments of the batches popped before
it in the same tick prepended: `{segments:["x","y","z","p","q"],
append:false}`; the queue is left empty. -/
theorem c1_drain_combined_update :
    processDisplayOutputQueue c1queue =
      ([⟨[("x", false), ("y", false), ("z", false), ("p", false), ("q", false)], false⟩],
       []) := by
  decide

/-- C5: each iteration of the Processing Worker loop either finds the
Ingestion Channel empty and leaves both queues untouched with no
processing step, or removes exactly the front event, applies exactly one
processing step to its parsed fields and appends exactly one result to
the Output Channel, before the next iteration polls again. -/
theorem worker_iteration_serial
    (process : String → Option String → Option String → Option String → UpdateInfo)
    (inq : List LogInput) (outq : List UpdateInfo) :
    (inq = [] ∧ logProcessingIteration process inq outq = ([], outq, [])) ∨
    (∃ e rest, inq = e :: rest ∧
      logProcessingIteration process inq outq =
        (rest,
         outq ++ [process (e.line.getD "") e.filter_string e.highlight_string e.pause_string],
         [(e.line.getD "", e.filter_string, e.highlight_string, e.pause_string)])) := by
  cases inq with
  | nil => exact Or.inl ⟨rfl, rfl⟩
  | cons e rest =>
    obtain ⟨l, fs, hs, ps⟩ := e
    refine Or.inr ⟨⟨l, fs, hs, ps⟩, rest, rfl, ?_⟩
    cases l <;> rfl

/-- C6: an event whose `"line"` key is missing is parsed with the empty
string in its place, and missing control keys stay absent (`none`); such a
degenerate event is consumed as valid input, producing exactly one
processing step and one output result (the parsing is a total function —
no fault is raised). -/
theorem worker_missing_fields_degenerate
    (process : String → Option String → Option String → Option String → UpdateInfo)
    (fs hs ps : Option String) (outq : List UpdateInfo) :
    logProcessingIteration process [⟨none, fs, hs, ps⟩] outq =
      ([], outq ++ [process "" fs hs ps], [("", fs, hs, ps)]) :=
  rfl

/-- C7: when the Ingestion Channel is empty the poll times out and the
`queue.Empty` handler does nothing: no result is placed on the Output
Channel, no processing step runs, and the iteration returns normally so
the loop continues. -/
theorem worker_timeout_idle
    (process : String → Option String → Option String → Option String → UpdateInfo)
    (outq : List UpdateInfo) :
    logProcessingIteration process [] outq = ([], outq, []) :=
  rfl

/-- Helper for C8: every invocation time produced by the scheduling guard
lies at least `interval` after the stored reference time, consecutively. -/
theorem drainInvocationTimes_chain (interval : ℚ) (ts : List ℚ) :
    ∀ last, List.Chain (fun a b => a + interval ≤ b) last
      (drainInvocationTimes interval last ts) := by
  induction ts with
  | nil => intro last; exact List.Chain.nil
  | cons t ts ih =>
    intro last
    unfold drainInvocationTimes
    by_cases h : interval ≤ t - last
    · simp only [h, if_true]
      exact List.Chain.cons (by linarith) (ih t)
    · simp only [h, if_false]
      exact ih last

/-- C8: the GUI loop invokes the output-queue drain only when at least
`LOG_UPDATE_TIME_INTERVAL_ms / 1000 = 0.1` seconds have elapsed since the
previous drain (equivalently, since the initial reference time for the
first drain), so any two consecutive drain invocation times are at least
`0.1` seconds apart. -/
theorem drain_tick_spacing (last : ℚ) (ts : List ℚ) :
    List.Chain (fun a b => a + log_update_time_interval_s ≤ b) last
        (drainInvocationTimes log_update_time_interval_s last ts) ∧
      log_update_time_interval_s = 1 / 10 := by
  refine ⟨drainInvocationTimes_chain log_update_time_interval_s ts last, ?_⟩
  norm_num [log_update_time_interval_s, LOG_UPDATE_TIME_INTERVAL_ms]

/-- C9 (counterexample): with `supported_mcu_list = ["A"]` and a history
of length 11 whose last element is `"A"`, the call
`_update_mcu_history("A")` takes the no-insert branch and the `[:10]`
truncation then removes `"A"`, so afterwards the history does NOT contain
the supported `mcu` that was passed in. -/
theorem update_mcu_history_containment_counterexample :
    "A" ∉ update_mcu_history ["A"]
      ["B0", "B1", "B2", "B3", "B4", "B5", "B6", "B7", "B8", "B9", "A"] "A" := by
  decide

/-- C9 (amended): if `mcu` is not in `supported_mcu_list` the history is
unchanged; otherwise afterwards the history has length at most 10, `mcu`
is inserted at the front only when it was not already present (so its
multiplicity never increases beyond `max 1 (old multiplicity)` — no
duplicate is created), and the history contains `mcu` provided it had at
most 10 entries before the call (if `mcu` was already present but only at
position ≥ 10, the `[:10]` truncation drops it). -/
theorem update_mcu_history_spec (supported_mcu_list mcu_history : List String)
    (mcu : String) :
    (mcu ∉ supported_mcu_list →
      update_mcu_history supported_mcu_list mcu_history mcu = mcu_history) ∧
    (mcu ∈ supported_mcu_list →
      (update_mcu_history supported_mcu_list mcu_history mcu).length ≤ 10 ∧
      (mcu ∉ mcu_history →
        (update_mcu_history supported_mcu_list mcu_history mcu).head? = some mcu) ∧
      (update_mcu_history supported_mcu_list mcu_history mcu).count mcu ≤
        max 1 (mcu_history.count mcu) ∧
      (mcu_history.length ≤ 10 →
        mcu ∈ update_mcu_history supported_mcu_list mcu_history mcu)) := by
  constructor
  · intro hns
    simp [update_mcu_history, hns]
  · intro hs
    unfold update_mcu_history
    rw [if_pos hs]
    by_cases hm : mcu ∈ mcu_history
    · rw [if_pos hm]
      refine ⟨List.length_take_le 10 mcu_history,
        fun hnm => absurd hm hnm, ?_, ?_⟩
      · calc (mcu_history.take 10).count mcu
            ≤ mcu_history.count mcu := List.Sublist.count_le (List.take_sublist 10 mcu_history) mcu
          _ ≤ max 1 (mcu_history.count mcu) := le_max_right 1 _
      · intro hlen
        rw [List.take_of_length_le hlen]
        exact hm
    · rw [if_neg hm]
      refine ⟨List.length_take_le 10 _, fun _ => ?_, ?_, fun _ => ?_⟩
      · cases mcu_history <;> rfl
      · have hcount : (mcu :: mcu_history).count mcu = mcu_history.count mcu + 1 :=
          List.count_cons_self mcu mcu_history
        have hzero : mcu_history.count mcu = 0 := List.count_eq_zero.mpr hm
        calc ((mcu :: mcu_history).take 10).count mcu
            ≤ (mcu :: mcu_history).count mcu :=
              List.Sublist.count_le (List.take_sublist 10 _) mcu
          _ = 1 := by rw [hcount, hzero]
          _ ≤ max 1 (mcu_history.count mcu) := le_max_left 1 _
      · have : (mcu :: mcu_history).take 10 = mcu :: mcu_history.take 9 := rfl
        rw [this]
        exact List.mem_cons_self mcu _

/-- Witness for C9 (amended) at a concrete input: supported MCU `"A"`,
history `["B"]`. -/
theorem update_mcu_history_spec_witness :
    (update_mcu_history ["A"] ["B"] "A").length ≤ 10 ∧
      (update_mcu_history ["A"] ["B"] "A").head? = some "A" ∧
      (update_mcu_history ["A"] ["B"] "A").count "A" ≤ max 1 (["B"].count "A") ∧
      "A" ∈ update_mcu_history ["A"] ["B"] "A" := by
  have h := (update_mcu_history_spec ["A"] ["B"] "A").2 (by decide)
  exact ⟨h.1, h.2.1 (by decide), h.2.2.1, h.2.2.2 (by decide)⟩

/-- C10: `_load_config` is a total function of the read-and-parse outcome:
when the file parses to a JSON dict it returns that dict, and in every
other case (any exception, or a non-dict JSON value such as a list) it
returns the default `{'mcu_history': [], 'last_interface': 'SWD'}`. -/
theorem load_config_total (read_result : Option JsonValue) :
    (∃ fields, read_result = some (JsonValue.obj fields) ∧
      load_config read_result = JsonValue.obj fields) ∨
    (load_config read_result = default_config ∧
      ∀ fields, read_result ≠ some (JsonValue.obj fields)) := by
  cases read_result with
  | none => exact Or.inr ⟨rfl, fun fields h => by cases h⟩
  | some data =>
    cases data with
    | obj fields => exact Or.inl ⟨fields, rfl, rfl⟩
    | null => exact Or.inr ⟨rfl, fun fields h => by cases h⟩
    | bool b => exact Or.inr ⟨rfl, fun fields h => by cases h⟩
    | num q => exact Or.inr ⟨rfl, fun fields h => by cases h⟩
    | str s => exact Or.inr ⟨rfl, fun fields h => by cases h⟩
    | arr elems => exact Or.inr ⟨rfl, fun fields h => by cases h⟩
